import Mathlib

/-!
Verification of the section-management and encryption subsystem of the BFD
section module (section.c of the GreenWaves riscv-binutils-gdb tree).

The development shallow-embeds the C source into Lean:
bytes are `Nat` values, truncated with `% 256` exactly where the C `uint8_t`
arithmetic truncates; fixed C arrays become `List Nat`; in-place mutation
becomes explicit state passing.  The build selects AES128
(`AES_KEYLEN = 16`, `AES_Nk = 4`, `AES_Nr = 10`), so the AES192/AES256
conditional code is compiled out, as in the source.
-/

/-! ## AES-CTR cipher engine (tiny-AES-c pruned to CTR, AES128 build) -/

/-- The AES forward S-box table `AES_sbox` (256 byte entries). -/
def AES_sbox : List Nat :=
  [0x63,0x7c,0x77,0x7b,0xf2,0x6b,0x6f,0xc5,0x30,0x01,0x67,0x2b,0xfe,0xd7,0xab,0x76,
   0xca,0x82,0xc9,0x7d,0xfa,0x59,0x47,0xf0,0xad,0xd4,0xa2,0xaf,0x9c,0xa4,0x72,0xc0,
   0xb7,0xfd,0x93,0x26,0x36,0x3f,0xf7,0xcc,0x34,0xa5,0xe5,0xf1,0x71,0xd8,0x31,0x15,
   0x04,0xc7,0x23,0xc3,0x18,0x96,0x05,0x9a,0x07,0x12,0x80,0xe2,0xeb,0x27,0xb2,0x75,
   0x09,0x83,0x2c,0x1a,0x1b,0x6e,0x5a,0xa0,0x52,0x3b,0xd6,0xb3,0x29,0xe3,0x2f,0x84,
   0x53,0xd1,0x00,0xed,0x20,0xfc,0xb1,0x5b,0x6a,0xcb,0xbe,0x39,0x4a,0x4c,0x58,0xcf,
   0xd0,0xef,0xaa,0xfb,0x43,0x4d,0x33,0x85,0x45,0xf9,0x02,0x7f,0x50,0x3c,0x9f,0xa8,
   0x51,0xa3,0x40,0x8f,0x92,0x9d,0x38,0xf5,0xbc,0xb6,0xda,0x21,0x10,0xff,0xf3,0xd2,
   0xcd,0x0c,0x13,0xec,0x5f,0x97,0x44,0x17,0xc4,0xa7,0x7e,0x3d,0x64,0x5d,0x19,0x73,
   0x60,0x81,0x4f,0xdc,0x22,0x2a,0x90,0x88,0x46,0xee,0xb8,0x14,0xde,0x5e,0x0b,0xdb,
   0xe0,0x32,0x3a,0x0a,0x49,0x06,0x24,0x5c,0xc2,0xd3,0xac,0x62,0x91,0x95,0xe4,0x79,
   0xe7,0xc8,0x37,0x6d,0x8d,0xd5,0x4e,0xa9,0x6c,0x56,0xf4,0xea,0x65,0x7a,0xae,0x08,
   0xba,0x78,0x25,0x2e,0x1c,0xa6,0xb4,0xc6,0xe8,0xdd,0x74,0x1f,0x4b,0xbd,0x8b,0x8a,
   0x70,0x3e,0xb5,0x66,0x48,0x03,0xf6,0x0e,0x61,0x35,0x57,0xb9,0x86,0xc1,0x1d,0x9e,
   0xe1,0xf8,0x98,0x11,0x69,0xd9,0x8e,0x94,0x9b,0x1e,0x87,0xe9,0xce,0x55,0x28,0xdf,
   0x8c,0xa1,0x89,0x0d,0xbf,0xe6,0x42,0x68,0x41,0x99,0x2d,0x0f,0xb0,0x54,0xbb,0x16]

/-- The round constant word array `AES_Rcon`. -/
def AES_Rcon : List Nat :=
  [0x8d, 0x01, 0x02, 0x04, 0x08, 0x10, 0x20, 0x40, 0x80, 0x1b, 0x36]

/-- Macro `AES_getSBoxValue(num)`: `AES_sbox[num]`.  The C index is a
`uint8_t`, hence the `% 256`. -/
def AES_getSBoxValue (n : Nat) : Nat := AES_sbox.getD (n % 256) 0

/-- One iteration of the second loop of `AES_KeyExpansion` (the loop body for
index `i`, `AES_Nk ≤ i < AES_Nb*(AES_Nr+1)`), appending round-key bytes
`4*i .. 4*i+3` to the schedule built so far.  `i % AES_Nk == 0` triggers
RotWord, SubWord and the Rcon xor (AES128: `AES_Nk = 4`). -/
def AES_KeyExpansionStep (rk : List Nat) (i : Nat) : List Nat :=
  let k := (i - 1) * 4
  let t0 := rk.getD k 0
  let t1 := rk.getD (k + 1) 0
  let t2 := rk.getD (k + 2) 0
  let t3 := rk.getD (k + 3) 0
  let u0 := if i % 4 = 0 then (AES_getSBoxValue t1) ^^^ (AES_Rcon.getD (i / 4) 0) else t0
  let u1 := if i % 4 = 0 then AES_getSBoxValue t2 else t1
  let u2 := if i % 4 = 0 then AES_getSBoxValue t3 else t2
  let u3 := if i % 4 = 0 then AES_getSBoxValue t0 else t3
  let k2 := (i - 4) * 4
  rk ++ [(rk.getD k2 0) ^^^ u0, (rk.getD (k2 + 1) 0) ^^^ u1,
         (rk.getD (k2 + 2) 0) ^^^ u2, (rk.getD (k2 + 3) 0) ^^^ u3]

/-- `AES_KeyExpansion`: the first `AES_Nk = 4` words copy the key, the loop
for `i = 4 .. 43` derives the remaining words, producing the
`AES_keyExpSize = 176` byte round-key schedule. -/
def AES_KeyExpansion (key : List Nat) : List Nat :=
  (List.range' 4 40).foldl AES_KeyExpansionStep (key.take 16)

/-- `AES_AddRoundKey`: state byte `4*i+j` is xored with
`RoundKey[round*16 + 4*i + j]` (flat index `n = 4*i + j`). -/
def AES_AddRoundKey (round : Nat) (st rk : List Nat) : List Nat :=
  (List.range 16).map (fun n => (st.getD n 0) ^^^ (rk.getD (round * 16 + n) 0))

/-- `AES_SubBytes`: S-box substitution on every state byte. -/
def AES_SubBytes (st : List Nat) : List Nat := st.map AES_getSBoxValue

/-- `AES_ShiftRows` on the flat 16-byte state with `state[i][j] = st[4*i+j]`:
row `j` of the `4x4` state is rotated left by `j` positions. -/
def AES_ShiftRows (st : List Nat) : List Nat :=
  [st.getD 0 0,  st.getD 5 0,  st.getD 10 0, st.getD 15 0,
   st.getD 4 0,  st.getD 9 0,  st.getD 14 0, st.getD 3 0,
   st.getD 8 0,  st.getD 13 0, st.getD 2 0,  st.getD 7 0,
   st.getD 12 0, st.getD 1 0,  st.getD 6 0,  st.getD 11 0]

/-- `AES_xtime(x) = (x<<1) ^ (((x>>7)&1) * 0x1b)`, truncated to `uint8_t` on
return. -/
def AES_xtime (x : Nat) : Nat := ((x * 2) ^^^ (((x / 128) % 2) * 0x1b)) % 256

/-- One column `(s0,s1,s2,s3)` of `AES_MixColumns`; the C's sequential
updates only read original column values (plus the saved `t = s0`). -/
def AES_MixColumn (s0 s1 s2 s3 : Nat) : List Nat :=
  let tmp := ((s0 ^^^ s1) ^^^ s2) ^^^ s3
  [s0 ^^^ ((AES_xtime (s0 ^^^ s1)) ^^^ tmp),
   s1 ^^^ ((AES_xtime (s1 ^^^ s2)) ^^^ tmp),
   s2 ^^^ ((AES_xtime (s2 ^^^ s3)) ^^^ tmp),
   s3 ^^^ ((AES_xtime (s3 ^^^ s0)) ^^^ tmp)]

/-- `AES_MixColumns` applied to the four columns (column `i` occupies flat
bytes `4*i .. 4*i+3`). -/
def AES_MixColumns (st : List Nat) : List Nat :=
  AES_MixColumn (st.getD 0 0) (st.getD 1 0) (st.getD 2 0) (st.getD 3 0) ++
  AES_MixColumn (st.getD 4 0) (st.getD 5 0) (st.getD 6 0) (st.getD 7 0) ++
  AES_MixColumn (st.getD 8 0) (st.getD 9 0) (st.getD 10 0) (st.getD 11 0) ++
  AES_MixColumn (st.getD 12 0) (st.getD 13 0) (st.getD 14 0) (st.getD 15 0)

/-- `AES_Cipher`: AddRoundKey 0, then rounds `1 .. AES_Nr-1` each do
SubBytes, ShiftRows, MixColumns, AddRoundKey; the final round `AES_Nr = 10`
does SubBytes, ShiftRows and the closing AddRoundKey. -/
def AES_Cipher (st rk : List Nat) : List Nat :=
  let st0 := AES_AddRoundKey 0 st rk
  let stM := (List.range' 1 9).foldl
    (fun s round => AES_AddRoundKey round (AES_MixColumns (AES_ShiftRows (AES_SubBytes s))) rk)
    st0
  AES_AddRoundKey 10 (AES_ShiftRows (AES_SubBytes stM)) rk

/-- Structure `AES_ctx` of the source: round-key schedule plus the running
128-bit counter `Iv`. -/
structure AES_ctx_t where
  RoundKey : List Nat
  Iv : List Nat
deriving DecidableEq

/-- `AES_init_ctx`: expands the key; `Iv` is left uninitialized in C (it is
fully overwritten by `AES_ctx_set_iv` before any use on the paths modelled
here), so the model picks zeros. -/
def AES_init_ctx (key : List Nat) : AES_ctx_t :=
  { RoundKey := AES_KeyExpansion key, Iv := List.replicate 16 0 }

/-- `AES_ctx_set_iv(ctx, iv, nounce)`: derives the effective IV as the
bytewise xor `iv[i] ^ nounce[i]` for `i < AES_BLOCKLEN = 16`. -/
def AES_ctx_set_iv (ctx : AES_ctx_t) (iv nonce : List Nat) : AES_ctx_t :=
  { ctx with Iv := (List.range 16).map (fun i => (iv.getD i 0) ^^^ (nonce.getD i 0)) }

/-- Big-endian increment of the counter, least-significant byte first after
reversal: the C loop walks `bi` from 15 down to 0, zeroing 255-bytes and
stopping at the first byte it can increment. -/
def AES_incIvLSB : List Nat → List Nat
  | [] => []
  | b :: rest => if b = 255 then 0 :: AES_incIvLSB rest else (b + 1) :: rest

/-- Counter increment of `ctx->Iv` as performed at each 16-byte block
boundary of the CTR loops. -/
def AES_incIv (iv : List Nat) : List Nat := (AES_incIvLSB iv.reverse).reverse

/-- Loop state of the CTR transforms: the running counter `Iv`, the current
keystream block `buffer`, and the intra-block index `bi`. -/
structure CtrState where
  Iv : List Nat
  buffer : List Nat
  bi : Nat
deriving DecidableEq

/-- Block-boundary regeneration (`bi == AES_BLOCKLEN` branch): encrypt the
current counter into `buffer`, then increment the counter and reset `bi`. -/
def ctrRegen (rk : List Nat) (s : CtrState) : CtrState :=
  { Iv := AES_incIv s.Iv, buffer := AES_Cipher s.Iv rk, bi := 0 }

/-- One iteration of the xcrypt loop body on data byte `b`: optional
regeneration, xor with `buffer[bi]`, and the `++bi` of the loop header. -/
def ctrStep (rk : List Nat) (s : CtrState) (b : Nat) : CtrState × Nat :=
  let s := if s.bi = 16 then ctrRegen rk s else s
  ({ s with bi := s.bi + 1 }, b ^^^ (s.buffer.getD s.bi 0))

/-- The xcrypt loop over the data bytes, threading the `CtrState`. -/
def ctrXcrypt (rk : List Nat) : CtrState → List Nat → CtrState × List Nat
  | s, [] => (s, [])
  | s, b :: rest =>
    let p := ctrStep rk s b
    let q := ctrXcrypt rk p.1 rest
    (q.1, p.2 :: q.2)

/-- `AES_CTR_xcrypt_buffer(ctx, buf, length)`: starts with `bi = 16` (the
local `buffer` is uninitialized in C and is regenerated before first use;
the model fills it with zeros), transforms `buf`, and writes the final
counter back into `ctx`.  Returns the updated context and the transformed
buffer. -/
def AES_CTR_xcrypt_buffer (ctx : AES_ctx_t) (buf : List Nat) : AES_ctx_t × List Nat :=
  let r := ctrXcrypt ctx.RoundKey ⟨ctx.Iv, List.replicate 16 0, 16⟩ buf
  ({ ctx with Iv := r.1.Iv }, r.2)

/-- One iteration (index `i`) of the counter-advance loop of
`AES_CTR_xcrypt_buffer_From`: at a block boundary the keystream block is
generated only when `i + AES_BLOCKLEN >= from` (the final skipped block),
while the counter increment is unconditional. -/
def ctrSkipStep (rk : List Nat) (frm : Nat) (s : CtrState) (i : Nat) : CtrState :=
  let s := if s.bi = 16 then
      { Iv := AES_incIv s.Iv,
        buffer := if frm ≤ i + 16 then AES_Cipher s.Iv rk else s.buffer,
        bi := 0 }
    else s
  { s with bi := s.bi + 1 }

/-- `AES_CTR_xcrypt_buffer_From(ctx, buf, from, length)`: first advances the
counter over the `from` skipped bytes, then runs the ordinary xcrypt loop
(whose `bi` and `buffer` carry over from the skip loop) over `buf`. -/
def AES_CTR_xcrypt_buffer_From (ctx : AES_ctx_t) (buf : List Nat) (frm : Nat) :
    AES_ctx_t × List Nat :=
  let s1 := (List.range frm).foldl (ctrSkipStep ctx.RoundKey frm) ⟨ctx.Iv, List.replicate 16 0, 16⟩
  let r := ctrXcrypt ctx.RoundKey s1 buf
  ({ ctx with Iv := r.1.Iv }, r.2)

example :
    AES_Cipher
      [0x00,0x11,0x22,0x33,0x44,0x55,0x66,0x77,0x88,0x99,0xaa,0xbb,0xcc,0xdd,0xee,0xff]
      (AES_KeyExpansion
        [0x00,0x01,0x02,0x03,0x04,0x05,0x06,0x07,0x08,0x09,0x0a,0x0b,0x0c,0x0d,0x0e,0x0f]) =
      [0x69,0xc4,0xe0,0xd8,0x6a,0x7b,0x04,0x30,0xd8,0xcd,0xb7,0x80,0x70,0xb4,0xc5,0x5a] := by
  decide

/-! ## Keystream characterization of the CTR loops -/

/-- Keystream byte at absolute stream position `n`: byte `n % 16` of the
block cipher applied to the counter after `n / 16` increments. -/
def ctrKeystream (rk iv : List Nat) (n : Nat) : Nat :=
  (AES_Cipher (AES_incIv^[n / 16] iv) rk).getD (n % 16) 0

/-- The functional form of the CTR transform: xor each data byte with the
keystream byte at its absolute position, starting at position `n`. -/
def ksMap (rk iv : List Nat) : Nat → List Nat → List Nat
  | _, [] => []
  | n, b :: rest => (b ^^^ ctrKeystream rk iv n) :: ksMap rk iv (n + 1) rest

/-- Invariant tying a `CtrState` to the absolute stream position `n` it is
about to process, for a run whose derived IV is `iv`. -/
def GoodState (rk iv : List Nat) (n : Nat) (s : CtrState) : Prop :=
  (n % 16 = 0 ∧ s.bi = 16 ∧ s.Iv = AES_incIv^[n / 16] iv) ∨
  (n % 16 ≠ 0 ∧ s.bi = n % 16 ∧ s.Iv = AES_incIv^[n / 16 + 1] iv ∧
    s.buffer = AES_Cipher (AES_incIv^[n / 16] iv) rk)

theorem ctrStep_good (rk iv : List Nat) (n : Nat) (s : CtrState) (b : Nat)
    (h : GoodState rk iv n s) :
    (ctrStep rk s b).2 = b ^^^ ctrKeystream rk iv n ∧
    GoodState rk iv (n + 1) (ctrStep rk s b).1 := by
  rcases h with ⟨h0, hbi, hiv⟩ | ⟨h0, hbi, hiv, hbuf⟩
  · have hdiv : (n + 1) / 16 = n / 16 := by omega
    have hmod : (n + 1) % 16 = 1 := by omega
    refine ⟨?_, Or.inr ⟨by omega, ?_, ?_, ?_⟩⟩ <;>
      simp [ctrStep, ctrRegen, hbi, hiv, hdiv, hmod, ctrKeystream, h0,
        Function.iterate_succ_apply']
  · have hlt : n % 16 < 16 := Nat.mod_lt _ (by norm_num)
    have hcond : ¬ n % 16 = 16 := by omega
    refine ⟨by simp [ctrStep, hbi, hcond, hbuf, ctrKeystream], ?_⟩
    by_cases h15 : n % 16 = 15
    · have hmod : (n + 1) % 16 = 0 := by omega
      have hdiv : (n + 1) / 16 = n / 16 + 1 := by omega
      refine Or.inl ⟨hmod, ?_, ?_⟩ <;> simp [ctrStep, hbi, hcond, h15, hiv, hdiv]
    · have hmod : (n + 1) % 16 = n % 16 + 1 := by omega
      have hdiv : (n + 1) / 16 = n / 16 := by omega
      refine Or.inr ⟨by omega, ?_, ?_, ?_⟩ <;>
        simp [ctrStep, hbi, hcond, hiv, hbuf, hmod, hdiv]

theorem ctrXcrypt_good (rk iv : List Nat) (buf : List Nat) :
    ∀ (n : Nat) (s : CtrState), GoodState rk iv n s →
      (ctrXcrypt rk s buf).2 = ksMap rk iv n buf ∧
      GoodState rk iv (n + buf.length) (ctrXcrypt rk s buf).1 := by
  induction buf with
  | nil => intro n s h; simpa [ctrXcrypt, ksMap] using h
  | cons b rest ih =>
    intro n s h
    obtain ⟨hout, hgood⟩ := ctrStep_good rk iv n s b h
    obtain ⟨ih1, ih2⟩ := ih (n + 1) (ctrStep rk s b).1 hgood
    refine ⟨by simp [ctrXcrypt, ksMap, hout, ih1], ?_⟩
    have harith : n + 1 + rest.length = n + (b :: rest).length := by
      simp [List.length_cons]; omega
    rw [show (ctrXcrypt rk s (b :: rest)).1 = (ctrXcrypt rk (ctrStep rk s b).1 rest).1 from rfl]
    exact harith ▸ ih2

/-- Invariant for the counter-advance loop of `AES_CTR_xcrypt_buffer_From`
after `i` of the `frm` skipped bytes: the keystream `buffer` is only pinned
down once the loop has entered the final skipped block
(`frm ≤ 16 * (i / 16) + 16`), matching the conditional regeneration. -/
def SkipInv (rk iv : List Nat) (frm i : Nat) (s : CtrState) : Prop :=
  if i % 16 = 0 then s.bi = 16 ∧ s.Iv = AES_incIv^[i / 16] iv
  else s.bi = i % 16 ∧ s.Iv = AES_incIv^[i / 16 + 1] iv ∧
    (frm ≤ 16 * (i / 16) + 16 → s.buffer = AES_Cipher (AES_incIv^[i / 16] iv) rk)

theorem ctrSkipStep_inv (rk iv : List Nat) (frm i : Nat) (s : CtrState)
    (h : SkipInv rk iv frm i s) : SkipInv rk iv frm (i + 1) (ctrSkipStep rk frm s i) := by
  by_cases h0 : i % 16 = 0
  · simp only [SkipInv, h0, if_pos] at h
    obtain ⟨hbi, hiv⟩ := h
    have hmod : (i + 1) % 16 = 1 := by omega
    have hdiv : (i + 1) / 16 = i / 16 := by omega
    have hblk : 16 * (i / 16) = i := by omega
    simp only [SkipInv, hmod, if_neg (by omega : ¬ (1:Nat) = 0)]
    refine ⟨?_, ?_, ?_⟩
    · simp [ctrSkipStep, hbi]
    · simp [ctrSkipStep, hbi, hiv, hdiv, Function.iterate_succ_apply']
    · intro hfrm
      rw [hdiv, hblk] at hfrm
      rw [hdiv]
      simp [ctrSkipStep, hbi, hiv, hfrm]
  · simp only [SkipInv, h0, if_neg] at h
    obtain ⟨hbi, hiv, hbuf⟩ := h
    have hlt : i % 16 < 16 := Nat.mod_lt _ (by norm_num)
    have hcond : ¬ i % 16 = 16 := by omega
    by_cases h15 : i % 16 = 15
    · have hmod : (i + 1) % 16 = 0 := by omega
      have hdiv : (i + 1) / 16 = i / 16 + 1 := by omega
      simp only [SkipInv, hmod, if_pos]
      exact ⟨by simp [ctrSkipStep, hbi, hcond, h15], by simp [ctrSkipStep, hbi, hcond, hiv, hdiv]⟩
    · have hmod : (i + 1) % 16 = i % 16 + 1 := by omega
      have hdiv : (i + 1) / 16 = i / 16 := by omega
      simp only [SkipInv, hmod, if_neg (by omega : ¬ i % 16 + 1 = 0)]
      refine ⟨by simp [ctrSkipStep, hbi, hcond], by simp [ctrSkipStep, hbi, hcond, hiv, hdiv], ?_⟩
      intro hfrm
      rw [hdiv] at hfrm
      rw [hdiv]
      simp [ctrSkipStep, hbi, hcond, hbuf hfrm]

theorem skipLoop_inv (rk iv : List Nat) (frm : Nat) (B : List Nat) :
    ∀ i, SkipInv rk iv frm i ((List.range i).foldl (ctrSkipStep rk frm) ⟨iv, B, 16⟩)
  | 0 => by simp [SkipInv]
  | i + 1 => by
    rw [List.range_succ, List.foldl_append]
    exact ctrSkipStep_inv rk iv frm i _ (skipLoop_inv rk iv frm B i)

theorem skipLoop_good (rk iv : List Nat) (frm : Nat) (B : List Nat) :
    GoodState rk iv frm ((List.range frm).foldl (ctrSkipStep rk frm) ⟨iv, B, 16⟩) := by
  have h := skipLoop_inv rk iv frm B frm
  by_cases h0 : frm % 16 = 0
  · simp only [SkipInv, h0, if_pos] at h
    exact Or.inl ⟨h0, h.1, h.2⟩
  · simp only [SkipInv, h0, if_neg] at h
    exact Or.inr ⟨h0, h.1, h.2.1, h.2.2 (by omega)⟩

theorem AES_CTR_xcrypt_buffer_spec (ctx : AES_ctx_t) (buf : List Nat) :
    (AES_CTR_xcrypt_buffer ctx buf).2 = ksMap ctx.RoundKey ctx.Iv 0 buf := by
  have h : GoodState ctx.RoundKey ctx.Iv 0 ⟨ctx.Iv, List.replicate 16 0, 16⟩ :=
    Or.inl ⟨rfl, rfl, by simp⟩
  exact (ctrXcrypt_good ctx.RoundKey ctx.Iv buf 0 _ h).1

theorem AES_CTR_xcrypt_buffer_From_spec (ctx : AES_ctx_t) (buf : List Nat) (frm : Nat) :
    (AES_CTR_xcrypt_buffer_From ctx buf frm).2 = ksMap ctx.RoundKey ctx.Iv frm buf :=
  (ctrXcrypt_good ctx.RoundKey ctx.Iv buf frm _
    (skipLoop_good ctx.RoundKey ctx.Iv frm (List.replicate 16 0))).1

theorem ksMap_take (rk iv : List Nat) :
    ∀ (l : List Nat) (n m : Nat), (ksMap rk iv n l).take m = ksMap rk iv n (l.take m)
  | [], _, _ => by simp [ksMap]
  | b :: rest, n, 0 => by simp [ksMap]
  | b :: rest, n, m + 1 => by
    simp [ksMap, List.take_succ_cons, ksMap_take rk iv rest (n + 1) m]

theorem ksMap_drop (rk iv : List Nat) :
    ∀ (l : List Nat) (n m : Nat), (ksMap rk iv n l).drop m = ksMap rk iv (n + m) (l.drop m)
  | [], _, _ => by simp [ksMap]
  | b :: rest, n, 0 => by simp [ksMap]
  | b :: rest, n, m + 1 => by
    have := ksMap_drop rk iv rest (n + 1) m
    simp only [ksMap, List.drop_succ_cons, this]
    congr 1
    omega

theorem ksMap_invol (rk iv : List Nat) :
    ∀ (l : List Nat) (n : Nat), ksMap rk iv n (ksMap rk iv n l) = l
  | [], _ => by simp [ksMap]
  | b :: rest, n => by
    simp [ksMap, ksMap_invol rk iv rest (n + 1), Nat.xor_assoc, Nat.xor_self]

/-! ## Encrypted components: data model and per-section cipher entry -/

/-- Structure `CryptedComponentT`: a named encryption component.  C strings
are `List Char`; nullable pointers are `Option`. -/
structure CryptedComponentT where
  Name : List Char
  Vendor : Option (List Char)
  Server : Option (List Char)
  UserAuth : Option (List Char)
  Key : Option (List Nat)
  Iv : Option (List Nat)
  Nonce : Option (List Nat)
deriving DecidableEq

/-- `EncryptObjSection(Comp, InBuffer, Pos, Len)`: builds a fresh AES
context from the component's key, derives the IV as `Comp->Iv ^ Comp->Nonce`
(`AES_ctx_set_iv`), and runs `AES_CTR_xcrypt_buffer_From` at offset `Pos`.
Returns the transformed buffer. -/
def EncryptObjSection (comp : CryptedComponentT) (inBuffer : List Nat) (pos : Nat) : List Nat :=
  (AES_CTR_xcrypt_buffer_From
    (AES_ctx_set_iv (AES_init_ctx (comp.Key.getD [])) (comp.Iv.getD []) (comp.Nonce.getD []))
    inBuffer pos).2

/-- Claim C1: cipher offset invariance.  For every AES key, stored IV,
nonce, plaintext `P`, offset `O` and length `L` with `O + L ≤ P.length`,
encrypting all of `P` from offset 0 with `AES_CTR_xcrypt_buffer` and then
slicing bytes `[O, O+L)` of the result is byte-for-byte identical to running
`AES_CTR_xcrypt_buffer_From` directly on the sub-buffer `P[O, O+L)` with
`from = O`, both runs starting from the same freshly derived IV. -/
theorem cipher_offset_invariance (key iv nonce P : List Nat) (O L : Nat)
    (h : O + L ≤ P.length) :
    ((AES_CTR_xcrypt_buffer (AES_ctx_set_iv (AES_init_ctx key) iv nonce) P).2.drop O).take L
      = (AES_CTR_xcrypt_buffer_From (AES_ctx_set_iv (AES_init_ctx key) iv nonce)
          ((P.drop O).take L) O).2 := by
  rw [AES_CTR_xcrypt_buffer_spec, AES_CTR_xcrypt_buffer_From_spec, ksMap_drop, ksMap_take]
  simp

theorem cipher_offset_invariance_witness :
    13 + 19 ≤ (List.range 40).length ∧
    ((AES_CTR_xcrypt_buffer
        (AES_ctx_set_iv (AES_init_ctx (List.range 16)) (List.replicate 16 0xf0)
          (List.replicate 16 7)) (List.range 40)).2.drop 13).take 19
      = (AES_CTR_xcrypt_buffer_From
          (AES_ctx_set_iv (AES_init_ctx (List.range 16)) (List.replicate 16 0xf0)
            (List.replicate 16 7))
          (((List.range 40).drop 13).take 19) 13).2 :=
  ⟨by decide,
   cipher_offset_invariance (List.range 16) (List.replicate 16 0xf0) (List.replicate 16 7)
     (List.range 40) 13 19 (by decide)⟩

/-- Claim C2: CTR round trip.  For every component (key, stored IV, nonce)
and plaintext `P` of arbitrary length (block-aligned or not), applying the
counter-mode transform (`EncryptObjSection`, which builds a freshly
initialized context each call) and then applying it again with an
identically re-initialized context returns exactly `P`. -/
theorem ctr_round_trip (comp : CryptedComponentT) (P : List Nat) (pos : Nat) :
    EncryptObjSection comp (EncryptObjSection comp P pos) pos = P := by
  unfold EncryptObjSection
  rw [AES_CTR_xcrypt_buffer_From_spec, AES_CTR_xcrypt_buffer_From_spec, ksMap_invol]

/-! ## Component lookup and IV aggregation -/

/-- Path match of `ComponentLookUp`: when the path `name` is strictly longer
than the component name, the component name must match the tail of the path
and the character just before it must be a directory separator; equal
lengths require exact equality; a shorter path never matches. -/
def ComponentMatch (name compName : List Char) : Bool :=
  if compName.length < name.length then
    decide (name.drop (name.length - compName.length) = compName) &&
      (decide (name.getD (name.length - compName.length - 1) ' ' = '/') ||
       decide (name.getD (name.length - compName.length - 1) ' ' = '\\'))
  else decide (name.length = compName.length) && decide (name = compName)

/-- `ComponentLookUp(Name, HeadComp)`: first component in list order whose
name matches the path. -/
def ComponentLookUp (name : List Char) : List CryptedComponentT → Option CryptedComponentT
  | [] => none
  | c :: rest => if ComponentMatch name c.Name then some c else ComponentLookUp name rest

/-- Position-returning variant of `ComponentLookUp`, used to model the C's
skip-by-pointer-identity (`Pt == OutComp`) as skip-by-index of the first
match. -/
def ComponentLookUpIdxAux (name : List Char) : Nat → List CryptedComponentT → Option Nat
  | _, [] => none
  | i, c :: rest =>
    if ComponentMatch name c.Name then some i else ComponentLookUpIdxAux name (i + 1) rest

def ComponentLookUpIdx (name : List Char) (comps : List CryptedComponentT) : Option Nat :=
  ComponentLookUpIdxAux name 0 comps

/-- Bytewise xor of two 16-byte vectors (`IvOut[i] ^= Pt->Iv[i]`). -/
def xor16 (a b : List Nat) : List Nat :=
  List.ofFn (fun j : Fin 16 => (a.getD j 0) ^^^ (b.getD j 0))

/-- Copy of the first 16 bytes of a vector into the 16-byte stack array
(`IvOut[i] = Pt->Iv[i]`). -/
def norm16 (v : List Nat) : List Nat := List.ofFn (fun j : Fin 16 => v.getD j 0)

/-- The 16-byte zero vector. -/
def zero16 : List Nat := List.replicate 16 0

/-- The component scan of `SetOutComponentIV`: walk the list with its
position `i`, skipping the (first-match) output component; return `none` as
soon as a scanned component has no IV (the C's `return 4`); otherwise
accumulate `IvOut` (first hit copies, later hits xor) and the
`EncryptedIn` flag. -/
def ivLoop (k : Option Nat) : Nat → List CryptedComponentT → List Nat → Bool →
    Option (List Nat × Bool)
  | _, [], acc, enc => some (acc, enc)
  | i, c :: rest, acc, enc =>
    if k = some i then ivLoop k (i + 1) rest acc enc
    else
      match c.Iv with
      | none => none
      | some v => ivLoop k (i + 1) rest (if enc then xor16 acc v else norm16 v) true

/-- Write of the aggregated IV into the output component
(`OutComp->Iv[i] = IvOut[i]`, allocating if needed). -/
def setIvAt : List CryptedComponentT → Nat → List Nat → List CryptedComponentT
  | [], _, _ => []
  | c :: rest, 0, v => { c with Iv := some v } :: rest
  | c :: rest, k + 1, v => c :: setIvAt rest k v

/-- `SetOutComponentIV(Name)`: returns the C status code and the updated
component list.  `0`: empty registry (no-op); `4`: some scanned input
component lacks an IV; `1`: output component found, its IV set to the
accumulated xor; `2`: no output component but encrypted inputs exist;
`3`: no output component and no encrypted input.  `ivInit` models the
uninitialized stack array `IvOut`. -/
def SetOutComponentIV (name : List Char) (comps : List CryptedComponentT)
    (ivInit : List Nat) : Nat × List CryptedComponentT :=
  if comps = [] then (0, comps)
  else
    match ivLoop (ComponentLookUpIdx name comps) 0 comps ivInit false with
    | none => (4, comps)
    | some (ivOut, encIn) =>
      match ComponentLookUpIdx name comps with
      | some k => (1, setIvAt comps k ivOut)
      | none => if encIn then (2, comps) else (3, comps)

/-- The IVs (as options) of the components scanned by `ivLoop` when the
output component has index `k` and the walk starts at position `i`. -/
def nonOutIvs (k : Option Nat) : Nat → List CryptedComponentT → List (Option (List Nat))
  | _, [] => []
  | i, c :: rest =>
    if k = some i then nonOutIvs k (i + 1) rest else c.Iv :: nonOutIvs k (i + 1) rest

/-- Present values of a list of optional IVs. -/
def somes : List (Option (List Nat)) → List (List Nat)
  | [] => []
  | none :: rest => somes rest
  | some v :: rest => v :: somes rest

theorem ivLoop_eq_none (k : Option Nat) :
    ∀ (l : List CryptedComponentT) (i : Nat) (acc : List Nat) (enc : Bool),
      none ∈ nonOutIvs k i l → ivLoop k i l acc enc = none
  | [], i, acc, enc => by simp [nonOutIvs]
  | c :: rest, i, acc, enc => by
    intro hmem
    simp only [nonOutIvs] at hmem
    simp only [ivLoop]
    by_cases hk : k = some i
    · rw [if_pos hk] at hmem
      rw [if_pos hk]
      exact ivLoop_eq_none k rest (i + 1) acc enc hmem
    · rw [if_neg hk] at hmem
      rw [if_neg hk]
      rw [List.mem_cons] at hmem
      cases hiv : c.Iv with
      | none => simp
      | some v =>
        rcases hmem with hmem | hmem
        · rw [hiv] at hmem; exact absurd hmem (by simp)
        · simp only []
          exact ivLoop_eq_none k rest (i + 1) _ true hmem

theorem ivLoop_eq_some (k : Option Nat) :
    ∀ (l : List CryptedComponentT) (i : Nat) (acc : List Nat),
      ¬ none ∈ nonOutIvs k i l →
      ivLoop k i l acc true = some (List.foldl xor16 acc (somes (nonOutIvs k i l)), true)
  | [], i, acc => by simp [nonOutIvs, ivLoop, somes]
  | c :: rest, i, acc => by
    intro hmem
    simp only [nonOutIvs] at hmem
    simp only [ivLoop, nonOutIvs]
    by_cases hk : k = some i
    · rw [if_pos hk] at hmem
      rw [if_pos hk, if_pos hk]
      exact ivLoop_eq_some k rest (i + 1) acc hmem
    · rw [if_neg hk] at hmem
      rw [if_neg hk, if_neg hk]
      rw [List.mem_cons] at hmem
      push_neg at hmem
      obtain ⟨h1, h2⟩ := hmem
      cases hiv : c.Iv with
      | none => rw [hiv] at h1; exact absurd rfl h1
      | some v =>
        simp only [somes, List.foldl_cons]
        exact ivLoop_eq_some k rest (i + 1) (xor16 acc v) h2

theorem xor16_zero16 (v : List Nat) : xor16 zero16 v = norm16 v := by
  unfold xor16 norm16
  refine congrArg List.ofFn (funext fun j => ?_)
  have hz : ∀ j : Fin 16, zero16.getD j.val 0 = 0 := by decide
  rw [hz j, Nat.zero_xor]

theorem ivLoop_false_eq_some (k : Option Nat) :
    ∀ (l : List CryptedComponentT) (i : Nat) (acc : List Nat),
      ¬ none ∈ nonOutIvs k i l →
      ivLoop k i l acc false =
        some (if somes (nonOutIvs k i l) = [] then (acc, false)
              else (List.foldl xor16 zero16 (somes (nonOutIvs k i l)), true))
  | [], i, acc => by simp [nonOutIvs, ivLoop, somes]
  | c :: rest, i, acc => by
    intro hmem
    simp only [nonOutIvs] at hmem
    simp only [ivLoop, nonOutIvs]
    by_cases hk : k = some i
    · rw [if_pos hk] at hmem
      rw [if_pos hk, if_pos hk]
      exact ivLoop_false_eq_some k rest (i + 1) acc hmem
    · rw [if_neg hk] at hmem
      rw [if_neg hk, if_neg hk]
      rw [List.mem_cons] at hmem
      push_neg at hmem
      obtain ⟨h1, h2⟩ := hmem
      cases hiv : c.Iv with
      | none => rw [hiv] at h1; exact absurd rfl h1
      | some v =>
        simp only [somes]
        have hred : (if false = true then xor16 acc v else norm16 v) = norm16 v := rfl
        rw [hred, ivLoop_eq_some k rest (i + 1) (norm16 v) h2]
        simp [List.foldl_cons, xor16_zero16]

theorem somes_ne_nil_of_all (comps : List CryptedComponentT) (hne : comps ≠ [])
    (hmem : ¬ none ∈ nonOutIvs none 0 comps) :
    somes (nonOutIvs none 0 comps) ≠ [] := by
  cases comps with
  | nil => exact absurd rfl hne
  | cons c rest =>
    simp only [nonOutIvs, if_neg (by simp : ¬ (none : Option Nat) = some 0)] at hmem ⊢
    rw [List.mem_cons] at hmem
    push_neg at hmem
    cases hiv : c.Iv with
    | none => rw [hiv] at hmem; exact absurd rfl hmem.1
    | some v => simp [somes]

/-- Claim C5: IV aggregation (`SetOutComponentIV`).  For every registry
state, output path and (uninitialized) stack accumulator: (1) if any
component other than the (first-match) output component lacks an IV, the
call fails with code 4 and changes nothing; (2) if an output component is
found, every other component has an IV, and there is at least one other
component, the xor of all their IVs is stored as the output component's IV
and the call succeeds with code 1; (3) if no component matches the output
path but the (nonempty) registry holds encrypted inputs, the call fails
with code 2; (4) an empty registry is a successful no-op (code 0). -/
theorem SetOutComponentIV_spec (name : List Char) (comps : List CryptedComponentT)
    (ivInit : List Nat) :
    (none ∈ nonOutIvs (ComponentLookUpIdx name comps) 0 comps →
      SetOutComponentIV name comps ivInit = (4, comps)) ∧
    (∀ k, ComponentLookUpIdx name comps = some k →
      ¬ none ∈ nonOutIvs (some k) 0 comps →
      somes (nonOutIvs (some k) 0 comps) ≠ [] →
      SetOutComponentIV name comps ivInit =
        (1, setIvAt comps k (List.foldl xor16 zero16 (somes (nonOutIvs (some k) 0 comps))))) ∧
    (ComponentLookUpIdx name comps = none → comps ≠ [] →
      ¬ none ∈ nonOutIvs none 0 comps →
      SetOutComponentIV name comps ivInit = (2, comps)) ∧
    (comps = [] → SetOutComponentIV name comps ivInit = (0, comps)) := by
  refine ⟨?_, ?_, ?_, ?_⟩
  · intro hmem
    have hne : comps ≠ [] := by
      intro hc; rw [hc] at hmem; simp [nonOutIvs] at hmem
    unfold SetOutComponentIV
    rw [if_neg hne, ivLoop_eq_none _ _ _ _ _ hmem]
  · intro k hk hmem hsome
    have hne : comps ≠ [] := by
      intro hc; rw [hc] at hsome; simp [nonOutIvs, somes] at hsome
    unfold SetOutComponentIV
    rw [if_neg hne, hk, ivLoop_false_eq_some _ _ _ _ hmem, if_neg hsome]
  · intro hk hne hmem
    unfold SetOutComponentIV
    rw [if_neg hne, hk, ivLoop_false_eq_some _ _ _ _ hmem,
      if_neg (somes_ne_nil_of_all comps hne hmem)]
    rfl
  · intro hc
    unfold SetOutComponentIV
    rw [if_pos hc]

/-- Demo component A of the spec scenario (Iv = 0x11 repeated). -/
def compA : CryptedComponentT :=
  ⟨"A.o".toList, none, none, none, some (List.replicate 16 1),
   some (List.replicate 16 0x11), none⟩

/-- Demo component B of the spec scenario (Iv = 0x22 repeated). -/
def compB : CryptedComponentT :=
  ⟨"B.o".toList, none, none, none, some (List.replicate 16 2),
   some (List.replicate 16 0x22), none⟩

/-- Demo output component O of the spec scenario (no IV yet). -/
def compO : CryptedComponentT :=
  ⟨"O.o".toList, none, none, none, some (List.replicate 16 3), none, none⟩

def demoComps : List CryptedComponentT := [compA, compB, compO]

theorem SetOutComponentIV_spec_witness :
    ComponentLookUpIdx ("O.o".toList) demoComps = some 2 ∧
    ¬ none ∈ nonOutIvs (some 2) 0 demoComps ∧
    somes (nonOutIvs (some 2) 0 demoComps) ≠ [] ∧
    List.foldl xor16 zero16 (somes (nonOutIvs (some 2) 0 demoComps)) =
      List.replicate 16 0x33 ∧
    SetOutComponentIV ("O.o".toList) demoComps (List.replicate 16 0xde) =
      (1, setIvAt demoComps 2
            (List.foldl xor16 zero16 (somes (nonOutIvs (some 2) 0 demoComps)))) :=
  ⟨by decide, by decide, by decide, by decide,
   (SetOutComponentIV_spec ("O.o".toList) demoComps (List.replicate 16 0xde)).2.1 2
     (by decide) (by decide) (by decide)⟩

/-! ## Configuration parser (token level)

The character-level lexer (`GetNextToken`) is not re-derived here; the
parser is modelled over the token stream the lexer produces (strings,
names, `=`/`:`, `;`, unknown characters), which is exactly the interface
`OneSection` consumes.  End of stream models `EOF`. -/

inductive RawTok where
  | tstr (s : List Char)
  | tname (s : List Char)
  | tset
  | tsemi
  | tunknown (s : List Char)
deriving DecidableEq

inductive TokenT where
  | T_STRING
  | T_NAME
  | T_EOFT
  | T_UNKNOWN
  | T_SET
  | T_SEMI
  | T_COMPONENT
  | T_SERVER
  | T_VENDOR
  | T_KEY
  | T_USER
  | T_IV
  | T_VERBOSE
deriving DecidableEq

def ERR_NOERR_EOF : Int := -1
def ERR_NOERR : Int := 0
def ERR_UNEXPECTED_EOF : Int := 1
def ERR_EXPECT_COMP : Int := 2
def ERR_EXPECT_SET : Int := 3
def ERR_EXPECT_STRING : Int := 4
def ERR_EXPECT_VENDOR : Int := 5
def ERR_EXPECT_SERVER : Int := 6
def ERR_EXPECT_KEY : Int := 7
def ERR_BADKEYLEN : Int := 9
def ERR_KEYNONHEX : Int := 10
def ERR_EXPECT_USER : Int := 11
def ERR_EXPECT_SECTION : Int := 12
def ERR_EXPECT_COMP_OR_IV : Int := 13
def ERR_WRONG_COMP : Int := 14

/-- `NameToToken`: uppercase the name and map the grammar keywords
(case-insensitive) to their token kinds; anything else stays `T_NAME`. -/
def NameToToken (s : List Char) : TokenT :=
  let u := s.map Char.toUpper
  if u = "COMPONENT".toList then TokenT.T_COMPONENT
  else if u = "VENDOR".toList then TokenT.T_VENDOR
  else if u = "SERVER".toList then TokenT.T_SERVER
  else if u = "USER".toList then TokenT.T_USER
  else if u = "KEY".toList then TokenT.T_KEY
  else if u = "IV".toList then TokenT.T_IV
  else if u = "VERBOSE".toList then TokenT.T_VERBOSE
  else TokenT.T_NAME

/-- One `GetNextToken` call at the token level: kind, text content and the
remaining stream. -/
structure TokRead where
  raw : TokenT
  tok : TokenT
  content : List Char
  rest : List RawTok
deriving DecidableEq

def readTok (ts : List RawTok) : TokRead :=
  match ts with
  | [] => ⟨TokenT.T_EOFT, TokenT.T_EOFT, [], []⟩
  | RawTok.tstr s :: r => ⟨TokenT.T_STRING, TokenT.T_STRING, s, r⟩
  | RawTok.tname s :: r => ⟨TokenT.T_NAME, NameToToken s, s, r⟩
  | RawTok.tset :: r => ⟨TokenT.T_SET, TokenT.T_SET, [], r⟩
  | RawTok.tsemi :: r => ⟨TokenT.T_SEMI, TokenT.T_SEMI, [], r⟩
  | RawTok.tunknown s :: r => ⟨TokenT.T_UNKNOWN, TokenT.T_UNKNOWN, s, r⟩

/-- Result of `OneSection`: error code, section keyword, string content,
verbosity flag after the call, and the remaining stream. -/
structure OneSectionRes where
  err : Int
  sec : TokenT
  content : List Char
  verbose : Bool
  rest : List RawTok
deriving DecidableEq

/-- `OneSection`: reads `keyword = "string"`, handling a leading `Verbose`
keyword (which sets the verbosity flag and reads the next token), clean EOF
before a record (`ERR_NOERR_EOF`), EOF inside a record
(`ERR_UNEXPECTED_EOF`), and the three shape errors. -/
def OneSection (verbose : Bool) (ts : List RawTok) : OneSectionRes :=
  let r1 := readTok ts
  if r1.raw = TokenT.T_EOFT then ⟨ERR_NOERR_EOF, r1.tok, r1.content, verbose, r1.rest⟩
  else
    let verbose2 := if r1.tok = TokenT.T_VERBOSE then true else verbose
    let r2 := if r1.tok = TokenT.T_VERBOSE then readTok r1.rest else r1
    if r1.tok = TokenT.T_VERBOSE ∧ r2.raw = TokenT.T_EOFT then
      ⟨ERR_NOERR_EOF, r2.tok, r2.content, verbose2, r2.rest⟩
    else if ¬ (r2.tok = TokenT.T_COMPONENT ∨ r2.tok = TokenT.T_VENDOR ∨
               r2.tok = TokenT.T_SERVER ∨ r2.tok = TokenT.T_USER ∨
               r2.tok = TokenT.T_KEY ∨ r2.tok = TokenT.T_IV) then
      ⟨ERR_EXPECT_SECTION, r2.tok, r2.content, verbose2, r2.rest⟩
    else
      let r3 := readTok r2.rest
      if r3.raw = TokenT.T_EOFT then ⟨ERR_UNEXPECTED_EOF, r2.tok, r3.content, verbose2, r3.rest⟩
      else if ¬ r3.raw = TokenT.T_SET then ⟨ERR_EXPECT_SET, r2.tok, r3.content, verbose2, r3.rest⟩
      else
        let r4 := readTok r3.rest
        if r4.raw = TokenT.T_EOFT then
          ⟨ERR_UNEXPECTED_EOF, r2.tok, r4.content, verbose2, r4.rest⟩
        else if ¬ r4.raw = TokenT.T_STRING then
          ⟨ERR_EXPECT_STRING, r2.tok, r4.content, verbose2, r4.rest⟩
        else ⟨ERR_NOERR, r2.tok, r4.content, verbose2, r4.rest⟩

/-- `ToHex` digit decoding (`tolower`, ranges `0-9` and `a-f`). -/
def hexDigit (c : Char) : Option Nat :=
  let lc := c.toLower
  if '0' ≤ lc ∧ lc ≤ '9' then some (lc.toNat - '0'.toNat)
  else if 'a' ≤ lc ∧ lc ≤ 'f' then some (lc.toNat - 'a'.toNat + 10)
  else none

/-- `ToHex(S)`: two hex characters to one byte, `none` for a bad digit
(the C's `-1`). -/
def ToHex (c0 c1 : Char) : Option Nat :=
  match hexDigit c0, hexDigit c1 with
  | some r0, some r1 => some (r0 * 16 + r1)
  | _, _ => none

def CheckKeyAux : List Char → Option (List Nat)
  | [] => some []
  | c0 :: c1 :: rest =>
    match ToHex c0 c1, CheckKeyAux rest with
    | some b, some bs => some (b :: bs)
    | _, _ => none
  | _ :: [] => none

/-- `CheckKey(Str, Len, Key)`: wrong length is `ERR_BADKEYLEN`, a bad digit
is `ERR_KEYNONHEX`, otherwise the decoded bytes. -/
def CheckKey (s : List Char) (len : Nat) : Except Int (List Nat) :=
  if ¬ s.length = len * 2 then Except.error ERR_BADKEYLEN
  else
    match CheckKeyAux s with
    | none => Except.error ERR_KEYNONHEX
    | some bs => Except.ok bs

/-- `PushComponent(Name, Head)`: walk the list; if the name is already
declared, report and return NULL (`none`); otherwise append a fresh record
(all other fields null) at the tail and return it (here: its index and the
new list). -/
def PushComponent (name : List Char) (comps : List CryptedComponentT) :
    Option (Nat × List CryptedComponentT) :=
  if comps.any (fun c => decide (c.Name = name)) then none
  else some (comps.length, comps ++ [⟨name, none, none, none, none, none, none⟩])

/-- In-place update of the component a `CryptedComponentT*` points to,
modelled as an index into the list. -/
def updateAt (f : CryptedComponentT → CryptedComponentT) :
    List CryptedComponentT → Nat → List CryptedComponentT
  | [], _ => []
  | c :: rest, 0 => f c :: rest
  | c :: rest, k + 1 => c :: updateAt f rest k

/-- Outcome of a configuration parse: a C return code with the component
list built so far, a NULL-pointer dereference (undefined behavior), or fuel
exhaustion (never reached for the fuel `ProcessComponents` supplies). -/
inductive ParseOutcome where
  | done (code : Int) (comps : List CryptedComponentT)
  | crash
  | fuelOut
deriving DecidableEq

/-- The `while (1)` record loop of `ProcessComponents`.  `comp` is the
current `*Comp` pointer (`none` = NULL).  The `T_COMPONENT` continuation
after `Key` stores `PushComponent`'s result into `*Comp` without the NULL
check present at the other two call sites; a subsequent
`(*Comp)->Vendor = ...` with `comp = none` is a NULL dereference
(`ParseOutcome.crash`). -/
def ProcessComponentsLoop (fuel : Nat) (verbose : Bool) (comp : Option Nat)
    (comps : List CryptedComponentT) (ts : List RawTok) : ParseOutcome :=
  match fuel with
  | 0 => ParseOutcome.fuelOut
  | fuel + 1 =>
    let rV := OneSection verbose ts
    if ¬ rV.err = ERR_NOERR then ParseOutcome.done rV.err comps
    else if ¬ rV.sec = TokenT.T_VENDOR then ParseOutcome.done ERR_EXPECT_VENDOR comps
    else
      match comp with
      | none => ParseOutcome.crash
      | some ci =>
        let comps1 := updateAt (fun c => { c with Vendor := some rV.content }) comps ci
        let rS := OneSection rV.verbose rV.rest
        if ¬ rS.err = ERR_NOERR then ParseOutcome.done rS.err comps1
        else if ¬ rS.sec = TokenT.T_SERVER then ParseOutcome.done ERR_EXPECT_SERVER comps1
        else
          let comps2 := updateAt (fun c => { c with Server := some rS.content }) comps1 ci
          let rU := OneSection rS.verbose rS.rest
          if ¬ rU.err = ERR_NOERR then ParseOutcome.done rU.err comps2
          else if ¬ rU.sec = TokenT.T_USER then ParseOutcome.done ERR_EXPECT_USER comps2
          else
            let comps3 := updateAt (fun c => { c with UserAuth := some rU.content }) comps2 ci
            let rK := OneSection rU.verbose rU.rest
            if ¬ rK.err = ERR_NOERR then ParseOutcome.done rK.err comps3
            else if ¬ rK.sec = TokenT.T_KEY then ParseOutcome.done ERR_EXPECT_KEY comps3
            else
              match CheckKey rK.content 16 with
              | Except.error e => ParseOutcome.done e comps3
              | Except.ok key =>
                let comps4 := updateAt
                  (fun c => { c with Key := some key, Iv := none, Nonce := none }) comps3 ci
                let rN := OneSection rK.verbose rK.rest
                if ¬ rN.err = ERR_NOERR then ParseOutcome.done rN.err comps4
                else if rN.sec = TokenT.T_COMPONENT then
                  match PushComponent rN.content comps4 with
                  | none => ProcessComponentsLoop fuel rN.verbose none comps4 rN.rest
                  | some p => ProcessComponentsLoop fuel rN.verbose (some p.1) p.2 rN.rest
                else if rN.sec = TokenT.T_IV then
                  match CheckKey rN.content 16 with
                  | Except.error e => ParseOutcome.done e comps4
                  | Except.ok iv =>
                    let comps5 := updateAt (fun c => { c with Iv := some iv }) comps4 ci
                    let rC := OneSection rN.verbose rN.rest
                    if ¬ rC.err = ERR_NOERR then ParseOutcome.done rC.err comps5
                    else if ¬ rC.sec = TokenT.T_COMPONENT then
                      ParseOutcome.done ERR_EXPECT_COMP comps5
                    else
                      match PushComponent rC.content comps5 with
                      | none => ParseOutcome.done ERR_WRONG_COMP comps5
                      | some p => ProcessComponentsLoop fuel rC.verbose (some p.1) p.2 rC.rest
                else ParseOutcome.done ERR_EXPECT_COMP_OR_IV comps4

/-- `ProcessComponents`: first record must be `Component = "..."`; its
`PushComponent` NULL result is checked (`ERR_WRONG_COMP`); then the record
loop runs.  The fuel bound exceeds any possible number of iterations (each
iteration consumes at least three tokens). -/
def ProcessComponents (ts : List RawTok) : ParseOutcome :=
  let r1 := OneSection false ts
  if ¬ r1.err = ERR_NOERR then ParseOutcome.done r1.err []
  else if ¬ r1.sec = TokenT.T_COMPONENT then ParseOutcome.done ERR_EXPECT_COMP []
  else
    match PushComponent r1.content [] with
    | none => ParseOutcome.done ERR_WRONG_COMP []
    | some p => ProcessComponentsLoop (ts.length + 1) r1.verbose (some p.1) p.2 r1.rest

/-- Hex image of the 16-byte demo key. -/
def demoKeyHex : List Char := "000102030405060708090a0b0c0d0e0f".toList

/-- Configuration token stream that re-declares component `A` in a chained
`Component` record directly after a `Key` entry (no intervening `Iv`), and
then continues with the next record's `Vendor` entry. -/
def c7_input : List RawTok :=
  [RawTok.tname "Component".toList, RawTok.tset, RawTok.tstr "A".toList,
   RawTok.tname "Vendor".toList, RawTok.tset, RawTok.tstr "V".toList,
   RawTok.tname "Server".toList, RawTok.tset, RawTok.tstr "S".toList,
   RawTok.tname "User".toList, RawTok.tset, RawTok.tstr "U".toList,
   RawTok.tname "Key".toList, RawTok.tset, RawTok.tstr demoKeyHex,
   RawTok.tname "Component".toList, RawTok.tset, RawTok.tstr "A".toList,
   RawTok.tname "Vendor".toList, RawTok.tset, RawTok.tstr "V2".toList]

/-- Claim C7 (code bug): a `Component` record that re-declares an existing
name directly after a `Key` entry does not terminate the load with a
reported error: `PushComponent` returns NULL unchecked, and the parser
dereferences the NULL component at the next record's `Vendor` assignment. -/
theorem duplicate_component_crash :
    ProcessComponents c7_input = ParseOutcome.crash := by decide

/-! ## Section registry: hash chain, creation, lookup -/

/-- Section record (`asection`), restricted to the fields the settled claims
read: `name` is NULL until the section is initialized. -/
structure ASection where
  name : Option String
  id : Nat
  index : Nat
  flags : Nat
  size : Nat
  rawsize : Nat
  contents : Option (List Nat)
deriving DecidableEq

/-- `struct section_hash_entry`: hash-table entry embedding its section. -/
structure SectionHashEntry where
  key : String
  sect : ASection
deriving DecidableEq

/-- Registry state of one owner plus the global section id counter:
the hash chain (head first), `section_count`, `section_id`, and
`output_has_begun`. -/
structure RegState where
  htab : List SectionHashEntry
  sectionCount : Nat
  nextId : Nat
  outputHasBegun : Bool
deriving DecidableEq

/-- Modelled from the spec: `bfd_hash_lookup` (hash.c, which is not among
the given sources) walks the bucket chain from its head and returns the
first entry whose hash and string match; equal strings always hash equally,
so the table is modelled as a single chain, head first. -/
def chainFind (nm : String) : List SectionHashEntry → Option SectionHashEntry
  | [] => none
  | e :: rest => if e.key = nm then some e else chainFind nm rest

/-- The duplicate-name insertion of `bfd_make_section_anyway_with_flags`:
`new_sh->root = sh->root; sh->root.next = &new_sh->root` chains the new
entry directly after the first entry bearing the name. -/
def chainInsertAfterFirst (nm : String) (x : SectionHashEntry) :
    List SectionHashEntry → List SectionHashEntry
  | [] => [x]
  | e :: rest =>
    if e.key = nm then e :: x :: rest else e :: chainInsertAfterFirst nm x rest

/-- `bfd_get_section_by_name`: plain hash lookup (`create = FALSE`). -/
def bfd_get_section_by_name (st : RegState) (nm : String) : Option ASection :=
  (chainFind nm st.htab).map (fun e => e.sect)

/-- Effect of `bfd_section_init` on a fresh hash entry: the section gets the
global id (post-incremented by the caller state update), the owner's current
section count as `index`, and the given flags and name.  The
`new_section_hook` backend call is modelled as always succeeding. -/
def newSectionEntry (st : RegState) (nm : String) (flags : Nat) : SectionHashEntry :=
  ⟨nm, ⟨some nm, st.nextId, st.sectionCount, flags, 0, 0, none⟩⟩

def reservedNames : List String := ["*ABS*", "*COM*", "*UND*", "*IND*"]

/-- `bfd_make_section_with_flags`: refuses after output has begun, refuses
the four reserved names, returns NULL on a name collision, otherwise
creates the section (hash-create inserts the entry at the chain head and
the caller initializes it in the same call). -/
def bfd_make_section_with_flags (st : RegState) (nm : String) (flags : Nat) :
    Option ASection × RegState :=
  if st.outputHasBegun then (none, st)
  else if reservedNames.contains nm then (none, st)
  else
    match chainFind nm st.htab with
    | some _ => (none, st)
    | none =>
      let e := newSectionEntry st nm flags
      (some e.sect, ⟨e :: st.htab, st.sectionCount + 1, st.nextId + 1, st.outputHasBegun⟩)

/-- `bfd_make_section_anyway_with_flags`: refuses after output has begun;
on a name collision it creates a fresh entry chained directly after the
existing first entry (the new section is not reachable by a direct hash
lookup, as the source comment states); otherwise inserts at the head. -/
def bfd_make_section_anyway_with_flags (st : RegState) (nm : String) (flags : Nat) :
    Option ASection × RegState :=
  if st.outputHasBegun then (none, st)
  else
    match chainFind nm st.htab with
    | some _ =>
      let e := newSectionEntry st nm flags
      (some e.sect,
       ⟨chainInsertAfterFirst nm e st.htab, st.sectionCount + 1, st.nextId + 1,
        st.outputHasBegun⟩)
    | none =>
      let e := newSectionEntry st nm flags
      (some e.sect, ⟨e :: st.htab, st.sectionCount + 1, st.nextId + 1, st.outputHasBegun⟩)

/-- One creation call of a driving sequence: the plain or the "anyway"
variant, with a name and flags. -/
structure CreateOp where
  anyway : Bool
  name : String
  flags : Nat
deriving DecidableEq

def applyOp (st : RegState) (op : CreateOp) : RegState :=
  if op.anyway then (bfd_make_section_anyway_with_flags st op.name op.flags).2
  else (bfd_make_section_with_flags st op.name op.flags).2

/-- Fresh owner: empty chain, zero sections, `section_id = 0x10` (ids 0-3
are reserved for the four standard pseudo-sections). -/
def initRegState : RegState := ⟨[], 0, 0x10, false⟩

def runOps (ops : List CreateOp) : RegState := ops.foldl applyOp initRegState

/-- Every entry's section id is below the global counter. -/
def IdsBounded (st : RegState) : Prop := ∀ e ∈ st.htab, e.sect.id < st.nextId

/-- The entry a hash lookup returns has the smallest (oldest) id among all
entries bearing the looked-up name. -/
def FirstIsOldest (st : RegState) : Prop :=
  ∀ nm f, chainFind nm st.htab = some f →
    ∀ e ∈ st.htab, e.key = nm → f.sect.id ≤ e.sect.id

theorem chainFind_mem (nm : String) :
    ∀ (l : List SectionHashEntry) (f : SectionHashEntry),
      chainFind nm l = some f → f ∈ l ∧ f.key = nm
  | [], f => by simp [chainFind]
  | e :: rest, f => by
    intro hf
    simp only [chainFind] at hf
    by_cases hk : e.key = nm
    · rw [if_pos hk] at hf
      cases hf
      exact ⟨List.mem_cons_self e rest, hk⟩
    · rw [if_neg hk] at hf
      obtain ⟨h1, h2⟩ := chainFind_mem nm rest f hf
      exact ⟨List.mem_cons_of_mem e h1, h2⟩

theorem chainFind_none (nm : String) :
    ∀ (l : List SectionHashEntry), chainFind nm l = none →
      ∀ e ∈ l, ¬ e.key = nm
  | [], _ => by simp
  | e :: rest, hf => by
    simp only [chainFind] at hf
    by_cases hk : e.key = nm
    · rw [if_pos hk] at hf; cases hf
    · rw [if_neg hk] at hf
      intro x hx
      rcases List.mem_cons.mp hx with h | h
      · rw [h]; exact hk
      · exact chainFind_none nm rest hf x h

theorem chainFind_insertAfter_same (nm : String) (x : SectionHashEntry) :
    ∀ (l : List SectionHashEntry) (f : SectionHashEntry), chainFind nm l = some f →
      chainFind nm (chainInsertAfterFirst nm x l) = some f
  | [], f => by simp [chainFind]
  | e :: rest, f => by
    intro hf
    simp only [chainFind] at hf
    simp only [chainInsertAfterFirst]
    by_cases hk : e.key = nm
    · rw [if_pos hk] at hf
      rw [if_pos hk]
      simp only [chainFind]
      rw [if_pos hk]
      exact hf
    · rw [if_neg hk] at hf
      rw [if_neg hk]
      simp only [chainFind]
      rw [if_neg hk]
      exact chainFind_insertAfter_same nm x rest f hf

theorem chainFind_insertAfter_other (nm nm' : String) (x : SectionHashEntry)
    (hx : x.key = nm) (hne : ¬ nm' = nm) :
    ∀ (l : List SectionHashEntry),
      chainFind nm' (chainInsertAfterFirst nm x l) = chainFind nm' l
  | [] => by
    simp only [chainInsertAfterFirst, chainFind]
    rw [if_neg (by rw [hx]; intro hc; exact hne hc.symm)]
  | e :: rest => by
    simp only [chainInsertAfterFirst]
    by_cases hk : e.key = nm
    · rw [if_pos hk]
      simp only [chainFind]
      by_cases hk' : e.key = nm'
      · rw [if_pos hk', if_pos hk']
      · rw [if_neg hk', if_neg hk',
          if_neg (by rw [hx]; intro hc; exact hne hc.symm)]
    · rw [if_neg hk]
      simp only [chainFind]
      by_cases hk' : e.key = nm'
      · rw [if_pos hk', if_pos hk']
      · rw [if_neg hk', if_neg hk']
        exact chainFind_insertAfter_other nm nm' x hx hne rest

theorem mem_insertAfter (nm : String) (x : SectionHashEntry) :
    ∀ (l : List SectionHashEntry) (e : SectionHashEntry),
      e ∈ chainInsertAfterFirst nm x l → e = x ∨ e ∈ l
  | [], e => by simp [chainInsertAfterFirst]
  | b :: rest, e => by
    intro he
    simp only [chainInsertAfterFirst] at he
    by_cases hk : b.key = nm
    · rw [if_pos hk] at he
      rcases List.mem_cons.mp he with h | h
      · exact Or.inr (by rw [h]; exact List.mem_cons_self b rest)
      · rcases List.mem_cons.mp h with h2 | h2
        · exact Or.inl h2
        · exact Or.inr (List.mem_cons_of_mem b h2)
    · rw [if_neg hk] at he
      rcases List.mem_cons.mp he with h | h
      · exact Or.inr (by rw [h]; exact List.mem_cons_self b rest)
      · rcases mem_insertAfter nm x rest e h with h2 | h2
        · exact Or.inl h2
        · exact Or.inr (List.mem_cons_of_mem b h2)

theorem insertHead_inv (st : RegState) (nm : String) (flags : Nat)
    (hnone : chainFind nm st.htab = none) (hb : IdsBounded st) (hf : FirstIsOldest st) :
    IdsBounded ⟨newSectionEntry st nm flags :: st.htab, st.sectionCount + 1,
      st.nextId + 1, st.outputHasBegun⟩ ∧
    FirstIsOldest ⟨newSectionEntry st nm flags :: st.htab, st.sectionCount + 1,
      st.nextId + 1, st.outputHasBegun⟩ := by
  constructor
  · intro e he
    rcases List.mem_cons.mp he with h | h
    · rw [h]; exact Nat.lt_succ_self _
    · exact Nat.lt_succ_of_lt (hb e h)
  · intro nm' f hfind e he hk
    simp only [chainFind] at hfind
    rcases List.mem_cons.mp he with hcase | hcase
    · by_cases hkey : (newSectionEntry st nm flags).key = nm'
      · rw [if_pos hkey] at hfind
        cases hfind
        rw [hcase]
      · rw [hcase] at hk; exact absurd hk hkey
    · by_cases hkey : (newSectionEntry st nm flags).key = nm'
      · have hnm : nm = nm' := hkey
        rw [← hnm] at hk
        exact absurd hk (chainFind_none nm st.htab hnone e hcase)
      · rw [if_neg hkey] at hfind
        exact hf nm' f hfind e hcase hk

theorem insertDup_inv (st : RegState) (nm : String) (flags : Nat) (e0 : SectionHashEntry)
    (hsome : chainFind nm st.htab = some e0) (hb : IdsBounded st) (hf : FirstIsOldest st) :
    IdsBounded ⟨chainInsertAfterFirst nm (newSectionEntry st nm flags) st.htab,
      st.sectionCount + 1, st.nextId + 1, st.outputHasBegun⟩ ∧
    FirstIsOldest ⟨chainInsertAfterFirst nm (newSectionEntry st nm flags) st.htab,
      st.sectionCount + 1, st.nextId + 1, st.outputHasBegun⟩ := by
  constructor
  · intro e he
    rcases mem_insertAfter nm _ st.htab e he with h | h
    · rw [h]; exact Nat.lt_succ_self _
    · exact Nat.lt_succ_of_lt (hb e h)
  · intro nm' f hfind e he hk
    by_cases hne : nm' = nm
    · rw [hne] at hfind
      rw [chainFind_insertAfter_same nm _ st.htab e0 hsome] at hfind
      cases hfind
      rcases mem_insertAfter nm _ st.htab e he with h | h
      · rw [h]
        exact Nat.le_of_lt (hb e0 (chainFind_mem nm st.htab e0 hsome).1)
      · exact hf nm e0 hsome e h (by rw [← hne]; exact hk)
    · rw [chainFind_insertAfter_other nm nm' _ rfl hne st.htab] at hfind
      rcases mem_insertAfter nm _ st.htab e he with h | h
      · exact absurd (by rw [h] at hk; exact hk.symm) (fun hc => hne hc)
      · exact hf nm' f hfind e h hk

theorem applyOp_inv (st : RegState) (op : CreateOp)
    (hb : IdsBounded st) (hf : FirstIsOldest st) :
    IdsBounded (applyOp st op) ∧ FirstIsOldest (applyOp st op) := by
  unfold applyOp
  by_cases ha : op.anyway = true
  · rw [if_pos ha]
    unfold bfd_make_section_anyway_with_flags
    by_cases ho : st.outputHasBegun
    · rw [if_pos ho]; exact ⟨hb, hf⟩
    · rw [if_neg ho]
      cases hsome : chainFind op.name st.htab with
      | some e0 => simpa using insertDup_inv st op.name op.flags e0 hsome hb hf
      | none => simpa using insertHead_inv st op.name op.flags hsome hb hf
  · rw [if_neg ha]
    unfold bfd_make_section_with_flags
    by_cases ho : st.outputHasBegun
    · rw [if_pos ho]; exact ⟨hb, hf⟩
    · rw [if_neg ho]
      by_cases hres : reservedNames.contains op.name
      · rw [if_pos hres]; exact ⟨hb, hf⟩
      · rw [if_neg hres]
        cases hsome : chainFind op.name st.htab with
        | some e0 => exact ⟨hb, hf⟩
        | none => simpa using insertHead_inv st op.name op.flags hsome hb hf

theorem foldl_inv : ∀ (ops : List CreateOp) (st : RegState),
    IdsBounded st → FirstIsOldest st →
    IdsBounded (ops.foldl applyOp st) ∧ FirstIsOldest (ops.foldl applyOp st)
  | [], st, hb, hf => ⟨hb, hf⟩
  | op :: ops, st, hb, hf => by
    obtain ⟨hb2, hf2⟩ := applyOp_inv st op hb hf
    exact foldl_inv ops (applyOp st op) hb2 hf2

/-- Claim C4 (amended): after any sequence of create calls, including the
"anyway" variant, `bfd_get_section_by_name` returns the FIRST-created
(smallest-id) section bearing the name — not the most recently created one,
because "anyway" duplicates are chained behind the existing hash entry.
A lookup succeeds exactly when some section with the name exists. -/
theorem find_by_name_first_created (ops : List CreateOp) (nm : String) :
    (∀ s, bfd_get_section_by_name (runOps ops) nm = some s →
      ∀ e ∈ (runOps ops).htab, e.key = nm → s.id ≤ e.sect.id) ∧
    ((bfd_get_section_by_name (runOps ops) nm).isSome ↔
      ∃ e ∈ (runOps ops).htab, e.key = nm) := by
  have hinit1 : IdsBounded initRegState := by intro e he; simp [initRegState] at he
  have hinit2 : FirstIsOldest initRegState := by
    intro nm' f hfind; simp [initRegState, chainFind] at hfind
  obtain ⟨hb, hf⟩ := foldl_inv ops initRegState hinit1 hinit2
  constructor
  · intro s hs e he hk
    unfold bfd_get_section_by_name at hs
    cases hfind : chainFind nm (runOps ops).htab with
    | none => rw [hfind] at hs; cases hs
    | some f =>
      rw [hfind] at hs
      have hs2 : f.sect = s := by simpa using hs
      rw [← hs2]
      exact hf nm f hfind e he hk
  · constructor
    · intro hsome
      unfold bfd_get_section_by_name at hsome
      cases hfind : chainFind nm (runOps ops).htab with
      | none => rw [hfind] at hsome; simp at hsome
      | some f =>
        obtain ⟨h1, h2⟩ := chainFind_mem nm _ f hfind
        exact ⟨f, h1, h2⟩
    · rintro ⟨e, he, hk⟩
      unfold bfd_get_section_by_name
      cases hfind : chainFind nm (runOps ops).htab with
      | none => exact absurd hk (chainFind_none nm _ hfind e he)
      | some f => simp

/-- The two-call scenario: create "A", then create "A" with the "anyway"
variant (which makes a second section of the same name). -/
def c4_ops : List CreateOp := [⟨false, "A", 0⟩, ⟨true, "A", 0⟩]

def c4_state1 : RegState := (bfd_make_section_with_flags initRegState "A" 0).2

def c4_anyway : Option ASection × RegState :=
  bfd_make_section_anyway_with_flags c4_state1 "A" 0

/-- Claim C4 counterexample: the most recently created section named "A" is
the one the "anyway" call returns (id 17), but `bfd_get_section_by_name`
returns the first-created section (id 16), so the lookup does NOT return
the most recently created section of that name. -/
theorem find_by_name_not_most_recent :
    c4_anyway.1.map ASection.id = some 17 ∧
    (bfd_get_section_by_name c4_anyway.2 "A").map ASection.id = some 16 ∧
    ¬ (bfd_get_section_by_name c4_anyway.2 "A").map ASection.id
        = c4_anyway.1.map ASection.id := by
  decide

theorem find_by_name_first_created_witness :
    bfd_get_section_by_name (runOps c4_ops) "A" = some ⟨some "A", 16, 0, 0, 0, 0, none⟩ ∧
    (⟨"A", ⟨some "A", 17, 1, 0, 0, 0, none⟩⟩ : SectionHashEntry) ∈ (runOps c4_ops).htab ∧
    (⟨"A", ⟨some "A", 17, 1, 0, 0, 0, none⟩⟩ : SectionHashEntry).key = "A" ∧
    (16 : Nat) ≤ (⟨"A", ⟨some "A", 17, 1, 0, 0, 0, none⟩⟩ : SectionHashEntry).sect.id :=
  ⟨by decide, by decide, by decide,
   (find_by_name_first_created c4_ops "A").1 ⟨some "A", 16, 0, 0, 0, 0, none⟩ (by decide)
     ⟨"A", ⟨some "A", 17, 1, 0, 0, 0, none⟩⟩ (by decide) (by decide)⟩

/-! ## Unique section name generation -/

/-- `bfd_get_unique_section_name(abfd, templat, count)`: starting from the
caller-supplied number (`num` is an `int`), try `templat ++ "." ++ num`,
`num+1`, ... until the name has no hash-table entry; abort (`none`) as soon
as the number exceeds 999999 (the check runs before each attempt). -/
def bfd_get_unique_section_name (htab : List SectionHashEntry) (templat : String)
    (num : Int) : Option String :=
  if h : 999999 < num then none
  else
    match chainFind (templat ++ "." ++ toString num) htab with
    | some _ => bfd_get_unique_section_name htab templat (num + 1)
    | none => some (templat ++ "." ++ toString num)
termination_by (1000000 - num).toNat
decreasing_by omega

/-- Suffix `k` is unused: the generated name has no hash-table entry. -/
def uniqueNameFree (htab : List SectionHashEntry) (templat : String) (k : Int) : Prop :=
  chainFind (templat ++ "." ++ toString k) htab = none

/-- Claim C8: `bfd_get_unique_section_name` always terminates (it is a total
function of its fuel-free well-founded definition), and either returns the
template extended with a dot and the smallest unused numeric suffix at or
after the starting number (every smaller suffix from the start being in
use), or aborts (`none`) because every suffix up to the 999999 bound is in
use. -/
theorem unique_name_spec (htab : List SectionHashEntry) (templat : String) (num : Int) :
    (∃ m : Int, num ≤ m ∧ m ≤ 999999 ∧ uniqueNameFree htab templat m ∧
      (∀ k : Int, num ≤ k → k < m → ¬ uniqueNameFree htab templat k) ∧
      bfd_get_unique_section_name htab templat num =
        some (templat ++ "." ++ toString m)) ∨
    ((∀ k : Int, num ≤ k → k ≤ 999999 → ¬ uniqueNameFree htab templat k) ∧
      bfd_get_unique_section_name htab templat num = none) := by
  by_cases h : 999999 < num
  · right
    refine ⟨fun k h1 h2 _ => by omega, ?_⟩
    unfold bfd_get_unique_section_name
    rw [dif_pos h]
  · cases hfind : chainFind (templat ++ "." ++ toString num) htab with
    | none =>
      left
      refine ⟨num, le_refl _, by omega, hfind, fun k h1 h2 => by omega, ?_⟩
      unfold bfd_get_unique_section_name
      rw [dif_neg h, hfind]
    | some e =>
      have heq : bfd_get_unique_section_name htab templat num =
          bfd_get_unique_section_name htab templat (num + 1) := by
        conv_lhs => unfold bfd_get_unique_section_name
        rw [dif_neg h, hfind]
      rcases unique_name_spec htab templat (num + 1) with
        ⟨m, h1, h2, h3, h4, h5⟩ | ⟨h4, h5⟩
      · left
        refine ⟨m, by omega, h2, h3, ?_, by rw [heq]; exact h5⟩
        intro k hk1 hk2 hkf
        by_cases hknum : k = num
        · rw [hknum] at hkf
          rw [hkf] at hfind
          cases hfind
        · exact h4 k (by omega) hk2 hkf
      · right
        refine ⟨?_, by rw [heq]; exact h5⟩
        intro k hk1 hk2 hkf
        by_cases hknum : k = num
        · rw [hknum] at hkf
          rw [hkf] at hfind
          cases hfind
        · exact h4 k (by omega) hk2 hkf
termination_by (1000000 - num).toNat
decreasing_by omega

/-! ## Section contents I/O bridge -/

def SEC_CODE : Nat := 0x010
def SEC_CONSTRUCTOR : Nat := 0x080
def SEC_HAS_CONTENTS : Nat := 0x100
def SEC_IN_MEMORY : Nat := 0x4000

/-- Modelled from the spec: the `BFD_ENCRYPTED` object flag is declared in
the bfd header, which is not among the given sources; only the tested bit
pattern matters to the bridge, not the numeric value. -/
def BFD_ENCRYPTED : Nat := 0x40000

/-- Modelled from the spec: the platform size type is taken as 64 bits, so
the C check `count != (size_t) count` fails exactly for counts at or above
`2^64`. -/
def SIZE_T_LIMIT : Nat := 2 ^ 64

inductive BfdError where
  | noContents
  | badValue
  | invalidOperation
deriving DecidableEq

/-- Owner state read by the I/O bridge: file name (for component matching),
object flags, read/write direction (`0` none, `1` read, `2` write, `3`
both, as in bfd's `enum bfd_direction`), and `output_has_begun`. -/
structure Abfd where
  filename : List Char
  flags : Nat
  direction : Nat
  outputHasBegun : Bool
deriving DecidableEq

/-- Modelled from the spec: `bfd_write_p` — the owner is opened for writing
(write or both direction). -/
def bfd_write_p (abfd : Abfd) : Bool :=
  decide (abfd.direction = 2) || decide (abfd.direction = 3)

/-- The `IsTextSection`/`IsEncrypted`/`ComponentLookUp` preamble shared by
both content entry points: a component is looked up only for a code section
(`SEC_CODE`) of an object carrying `BFD_ENCRYPTED`.  (`AcquireComponentIV`
only prints in verbose mode and mutates nothing.) -/
def sectionComponent (components : List CryptedComponentT) (abfd : Abfd)
    (secFlags : Nat) : Option CryptedComponentT :=
  if secFlags &&& SEC_CODE ≠ 0 ∧ abfd.flags &&& BFD_ENCRYPTED ≠ 0 then
    ComponentLookUp abfd.filename components
  else none

/-- `memcpy(dst + off, src, src.length)` on byte buffers. -/
def writeBytes (dst : List Nat) (off : Nat) (src : List Nat) : List Nat :=
  dst.take off ++ src ++ dst.drop (off + src.length)

/-- Effective section size of the read path: `rawsize` when the owner is
not in write direction and `rawsize` is nonzero, else `size`. -/
def effectiveSize (abfd : Abfd) (sec : ASection) : Nat :=
  if abfd.direction ≠ 2 ∧ sec.rawsize ≠ 0 then sec.rawsize else sec.size

/-- Observable outcome of `bfd_set_section_contents`: return value, error
code set by this function, the buffer handed to the backend writer (`none`
when the backend is not reached), the in-memory cache afterwards, the
caller's buffer afterwards, `output_has_begun` afterwards, and whether the
encryption scratch duplicate was allocated and freed. -/
structure SetResult where
  ok : Bool
  err : Option BfdError
  forwarded : Option (List Nat)
  cacheAfter : Option (List Nat)
  locationAfter : List Nat
  outputHasBegunAfter : Bool
  copyFreed : Bool
deriving DecidableEq

/-- `bfd_set_section_contents`: component preamble; `NoContents` check;
`BadValue` bounds check against `section->size`; `InvalidOperation` unless
opened for writing; optional copy into the in-memory cache (skipped when
the caller's pointer aliases the cache, modelled by `locAliasesCache`);
then, for a registered encrypted code section, duplicate the caller's
buffer, encrypt the duplicate over `[offset, offset+count)`, hand the
duplicate to the backend and free it — otherwise hand the caller's buffer
over unchanged.  `output_has_begun` is set only on backend success.
`backendOk` models the backend writer's verdict. -/
def bfd_set_section_contents (components : List CryptedComponentT) (abfd : Abfd)
    (sec : ASection) (location : List Nat) (offset count : Nat)
    (locAliasesCache : Bool) (backendOk : Bool) : SetResult :=
  let comp := sectionComponent components abfd sec.flags
  if sec.flags &&& SEC_HAS_CONTENTS = 0 then
    ⟨false, some BfdError.noContents, none, sec.contents, location,
      abfd.outputHasBegun, false⟩
  else if offset > sec.size ∨ count > sec.size ∨ offset + count > sec.size ∨
      SIZE_T_LIMIT ≤ count then
    ⟨false, some BfdError.badValue, none, sec.contents, location,
      abfd.outputHasBegun, false⟩
  else if ¬ bfd_write_p abfd then
    ⟨false, some BfdError.invalidOperation, none, sec.contents, location,
      abfd.outputHasBegun, false⟩
  else
    let cache2 := match sec.contents with
      | some c =>
        if ¬ locAliasesCache then some (writeBytes c offset (location.take count))
        else some c
      | none => none
    match comp with
    | some cp =>
      ⟨backendOk, none, some (EncryptObjSection cp (location.take count) offset), cache2,
        location, (if backendOk then true else abfd.outputHasBegun), true⟩
    | none =>
      ⟨backendOk, none, some location, cache2, location,
        (if backendOk then true else abfd.outputHasBegun), false⟩

/-- Observable outcome of `bfd_get_section_contents`: return value, error
code, the caller's destination buffer afterwards, whether the backend
reader was consulted, and the section flags afterwards (`SEC_IN_MEMORY` can
be cleared defensively). -/
structure GetResult where
  ok : Bool
  err : Option BfdError
  locationAfter : List Nat
  backendCalled : Bool
  secFlagsAfter : Nat
deriving DecidableEq

/-- `bfd_get_section_contents`: component preamble; `SEC_CONSTRUCTOR`
sections are zero-filled successes with no further checks; `BadValue`
bounds check against the effective size; `count == 0` no-op; sections
without contents zero-fill; `SEC_IN_MEMORY` sections copy from the cache
(clearing the flag and failing if the cache pointer is absent); otherwise
the backend reads — for a registered encrypted code section into a
malloc'd scratch buffer whose post-call bytes are `backendBuf`, which is
then decrypted in place and copied to the destination regardless of the
backend verdict `backendOk`. -/
def bfd_get_section_contents (components : List CryptedComponentT) (abfd : Abfd)
    (sec : ASection) (location : List Nat) (offset count : Nat)
    (backendOk : Bool) (backendBuf : List Nat) : GetResult :=
  let comp := sectionComponent components abfd sec.flags
  if sec.flags &&& SEC_CONSTRUCTOR ≠ 0 then
    ⟨true, none, writeBytes location 0 (List.replicate count 0), false, sec.flags⟩
  else if offset > effectiveSize abfd sec ∨ count > effectiveSize abfd sec ∨
      offset + count > effectiveSize abfd sec ∨ SIZE_T_LIMIT ≤ count then
    ⟨false, some BfdError.badValue, location, false, sec.flags⟩
  else if count = 0 then ⟨true, none, location, false, sec.flags⟩
  else if sec.flags &&& SEC_HAS_CONTENTS = 0 then
    ⟨true, none, writeBytes location 0 (List.replicate count 0), false, sec.flags⟩
  else if sec.flags &&& SEC_IN_MEMORY ≠ 0 then
    match sec.contents with
    | none =>
      ⟨false, some BfdError.invalidOperation, location, false, sec.flags ^^^ SEC_IN_MEMORY⟩
    | some c =>
      ⟨true, none, writeBytes location 0 ((c.drop offset).take count), false, sec.flags⟩
  else
    match comp with
    | some cp =>
      ⟨backendOk, none, writeBytes location 0 (EncryptObjSection cp backendBuf offset),
        true, sec.flags⟩
    | none => ⟨backendOk, none, writeBytes location 0 backendBuf, true, sec.flags⟩

/-- Claim C3: write-path non-aliasing.  For every call to
`bfd_set_section_contents` whose preconditions succeed (code section of a
registered encrypted component, contents flag set, bounds satisfied, owner
opened for writing), the cipher runs over exactly `[offset, offset+count)`
of a freshly made duplicate of the caller's bytes, the encrypted duplicate
— not the original — is handed to the backend writer and freed afterwards
(on success and on failure alike), and the caller's buffer is unchanged. -/
theorem set_contents_non_aliasing (components : List CryptedComponentT) (abfd : Abfd)
    (sec : ASection) (location : List Nat) (offset count : Nat)
    (locAliasesCache : Bool) (backendOk : Bool) (cp : CryptedComponentT)
    (hcomp : sectionComponent components abfd sec.flags = some cp)
    (hc : ¬ sec.flags &&& SEC_HAS_CONTENTS = 0)
    (hbound : ¬ (offset > sec.size ∨ count > sec.size ∨ offset + count > sec.size ∨
      SIZE_T_LIMIT ≤ count))
    (hw : bfd_write_p abfd = true) :
    (bfd_set_section_contents components abfd sec location offset count
        locAliasesCache backendOk).forwarded
      = some (EncryptObjSection cp (location.take count) offset) ∧
    (bfd_set_section_contents components abfd sec location offset count
        locAliasesCache backendOk).locationAfter = location ∧
    (bfd_set_section_contents components abfd sec location offset count
        locAliasesCache backendOk).copyFreed = true := by
  unfold bfd_set_section_contents
  rw [if_neg hc, if_neg hbound, if_neg (by simp [hw]), hcomp]
  exact ⟨rfl, rfl, rfl⟩

/-- Code section of an encrypted object, used by the C3/C9 witnesses. -/
def codeSec : ASection :=
  ⟨some ".text", 30, 0, SEC_CODE + SEC_HAS_CONTENTS, 100, 0, none⟩

/-- Owner of `codeSec` opened for writing, flagged encrypted, whose file
name matches component `A.o`. -/
def encBfd : Abfd := ⟨"A.o".toList, BFD_ENCRYPTED, 2, false⟩

theorem set_contents_non_aliasing_witness :
    sectionComponent [compA] encBfd codeSec.flags = some compA ∧
    ¬ codeSec.flags &&& SEC_HAS_CONTENTS = 0 ∧
    ¬ ((3 : Nat) > codeSec.size ∨ (20 : Nat) > codeSec.size ∨
        (3 : Nat) + 20 > codeSec.size ∨ SIZE_T_LIMIT ≤ 20) ∧
    bfd_write_p encBfd = true ∧
    ((bfd_set_section_contents [compA] encBfd codeSec (List.replicate 20 5) 3 20
        false false).forwarded
      = some (EncryptObjSection compA ((List.replicate 20 5).take 20) 3) ∧
    (bfd_set_section_contents [compA] encBfd codeSec (List.replicate 20 5) 3 20
        false false).locationAfter = List.replicate 20 5 ∧
    (bfd_set_section_contents [compA] encBfd codeSec (List.replicate 20 5) 3 20
        false false).copyFreed = true) :=
  ⟨by decide, by decide, by decide, by decide,
   set_contents_non_aliasing [compA] encBfd codeSec (List.replicate 20 5) 3 20
     false false compA (by decide) (by decide) (by decide) (by decide)⟩

/-- Plain (unencrypted) section of size 100 with contents, and its owner
opened for writing, for the C6 bounds scenario. -/
def sec100 : ASection := ⟨some ".data", 31, 0, SEC_HAS_CONTENTS, 100, 0, none⟩

def plainBfd : Abfd := ⟨"out.o".toList, 0, 2, false⟩

/-- Claim C6: write bounds check.  Once the contents-flag check has passed,
any call with `offset + count` beyond the section's declared size, or with
`count` not representable in the platform size type, fails with `BadValue`
(before the write-direction check, and with no state change); in
particular a section of size 100 rejects `write(offset=90, count=20)` with
`BadValue` and accepts `write(offset=90, count=10)`. -/
theorem set_contents_bounds (components : List CryptedComponentT) (abfd : Abfd)
    (sec : ASection) (location : List Nat) (offset count : Nat)
    (locAliasesCache : Bool) (backendOk : Bool) :
    (¬ sec.flags &&& SEC_HAS_CONTENTS = 0 →
      offset + count > sec.size ∨ SIZE_T_LIMIT ≤ count →
      bfd_set_section_contents components abfd sec location offset count
          locAliasesCache backendOk
        = ⟨false, some BfdError.badValue, none, sec.contents, location,
            abfd.outputHasBegun, false⟩) ∧
    bfd_set_section_contents [] plainBfd sec100 (List.replicate 20 7) 90 20 false true
      = ⟨false, some BfdError.badValue, none, none, List.replicate 20 7, false, false⟩ ∧
    bfd_set_section_contents [] plainBfd sec100 (List.replicate 10 7) 90 10 false true
      = ⟨true, none, some (List.replicate 10 7), none, List.replicate 10 7, true, false⟩ := by
  refine ⟨?_, by decide, by decide⟩
  intro hc hbad
  unfold bfd_set_section_contents
  rw [if_neg hc, if_pos (by tauto)]

theorem set_contents_bounds_witness :
    ¬ sec100.flags &&& SEC_HAS_CONTENTS = 0 ∧
    ((90 : Nat) + 20 > sec100.size ∨ SIZE_T_LIMIT ≤ 20) ∧
    bfd_set_section_contents [] plainBfd sec100 (List.replicate 20 7) 90 20 false true
      = ⟨false, some BfdError.badValue, none, sec100.contents, List.replicate 20 7,
          plainBfd.outputHasBegun, false⟩ :=
  ⟨by decide, by decide,
   (set_contents_bounds [] plainBfd sec100 (List.replicate 20 7) 90 20 false true).1
     (by decide) (by decide)⟩

/-- Claim C9 (implicit): on an encrypted-component read with no in-memory
cache, `bfd_get_section_contents` decrypts the malloc'd scratch buffer and
copies `count` bytes into the caller's destination even when the backend
read reported failure: the destination is overwritten with the decrypted
scratch bytes and the backend's verdict is passed through as the return
value. -/
theorem get_contents_clobbers_on_failure (components : List CryptedComponentT)
    (abfd : Abfd) (sec : ASection) (location : List Nat) (offset count : Nat)
    (backendOk : Bool) (backendBuf : List Nat) (cp : CryptedComponentT)
    (hcomp : sectionComponent components abfd sec.flags = some cp)
    (hctor : sec.flags &&& SEC_CONSTRUCTOR = 0)
    (hbound : ¬ (offset > effectiveSize abfd sec ∨ count > effectiveSize abfd sec ∨
      offset + count > effectiveSize abfd sec ∨ SIZE_T_LIMIT ≤ count))
    (hcnt : ¬ count = 0)
    (hhas : ¬ sec.flags &&& SEC_HAS_CONTENTS = 0)
    (hmem : sec.flags &&& SEC_IN_MEMORY = 0) :
    bfd_get_section_contents components abfd sec location offset count backendOk backendBuf
      = ⟨backendOk, none,
          writeBytes location 0 (EncryptObjSection cp backendBuf offset), true,
          sec.flags⟩ := by
  unfold bfd_get_section_contents
  rw [if_neg (by simp [hctor]), if_neg hbound, if_neg hcnt, if_neg hhas,
    if_neg (by simp [hmem]), hcomp]

theorem get_contents_clobbers_on_failure_witness :
    sectionComponent [compA] encBfd codeSec.flags = some compA ∧
    codeSec.flags &&& SEC_CONSTRUCTOR = 0 ∧
    ¬ ((4 : Nat) > effectiveSize encBfd codeSec ∨ (8 : Nat) > effectiveSize encBfd codeSec ∨
        (4 : Nat) + 8 > effectiveSize encBfd codeSec ∨ SIZE_T_LIMIT ≤ 8) ∧
    ¬ (8 : Nat) = 0 ∧
    ¬ codeSec.flags &&& SEC_HAS_CONTENTS = 0 ∧
    codeSec.flags &&& SEC_IN_MEMORY = 0 ∧
    bfd_get_section_contents [compA] encBfd codeSec (List.replicate 8 9) 4 8 false
        (List.replicate 8 0xcc)
      = ⟨false, none,
          writeBytes (List.replicate 8 9) 0
            (EncryptObjSection compA (List.replicate 8 0xcc) 4), true,
          codeSec.flags⟩ :=
  ⟨by decide, by decide, by decide, by decide, by decide, by decide,
   get_contents_clobbers_on_failure [compA] encBfd codeSec (List.replicate 8 9) 4 8 false
     (List.replicate 8 0xcc) compA (by decide) (by decide) (by decide) (by decide)
     (by decide) (by decide)⟩

/-- Claim C10 (implicit): for every section carrying `SEC_CONSTRUCTOR` and
every offset and count, `bfd_get_section_contents` zero-fills `count` bytes
of the destination and returns success without consulting the backend and
without any bounds check — even when `offset + count` exceeds both `size`
and `rawsize`. -/
theorem get_contents_constructor_bypass (components : List CryptedComponentT)
    (abfd : Abfd) (sec : ASection) (location : List Nat) (offset count : Nat)
    (backendOk : Bool) (backendBuf : List Nat)
    (hctor : ¬ sec.flags &&& SEC_CONSTRUCTOR = 0) :
    bfd_get_section_contents components abfd sec location offset count backendOk backendBuf
      = ⟨true, none, writeBytes location 0 (List.replicate count 0), false, sec.flags⟩ := by
  unfold bfd_get_section_contents
  rw [if_pos hctor]

/-- Constructor section of size 10 (rawsize 6) for the C10 witness. -/
def ctorSec : ASection := ⟨some ".ctors", 32, 0, SEC_CONSTRUCTOR, 10, 6, none⟩

theorem get_contents_constructor_bypass_witness :
    ¬ ctorSec.flags &&& SEC_CONSTRUCTOR = 0 ∧
    ctorSec.size < 90 + 20 ∧ ctorSec.rawsize < 90 + 20 ∧
    bfd_get_section_contents [] plainBfd ctorSec (List.replicate 5 1) 90 20 false []
      = ⟨true, none, writeBytes (List.replicate 5 1) 0 (List.replicate 20 0), false,
          ctorSec.flags⟩ :=
  ⟨by decide, by decide, by decide,
   get_contents_constructor_bypass [] plainBfd ctorSec (List.replicate 5 1) 90 20 false []
     (by decide)⟩
